import Mathlib

/-!
Shallow embedding of the Node component of the IxCompiler front end,
translated from `source/mt/B.x-Node.h` (literate C: `ixcompiler.Node.c`).

A `Node` owns one Token (the Lexical Unit, modelled as an opaque `Nat`
identity), holds a non-owning parent reference, and owns an ordered
container of child Node pointers.  A stored child pointer may be null,
because `Node_addChild` pushes the result of `Node_new` without checking
it, so the container element type is `Option Node`; to keep the mutual
recursion structural the container is given as its own mutual inductive
`NodeList` whose `consNull` constructor is a stored null pointer.

Allocation (`Platform_Alloc`) is external to the sources; it is modelled
by a boolean oracle `ok` passed to the operations that allocate, plus a
caller-chosen identity `nid` for the storage that a successful allocation
returns.  Destruction is modelled as the trace of release effects
(`Ev` events) that `Node_free` performs, so that the exactly-once
release discipline can be stated about the trace.
-/

set_option autoImplicit false

namespace IxNode

/-- A release effect performed during destruction: releasing a Token
(`Token_free`), clearing the parent reference of a Node, or releasing the
storage of a Node (`Platform_Free`). -/
inductive Ev : Type where
  | freeTok (t : Nat)
  | clearParent (n : Nat)
  | freeNode (n : Nat)
  deriving DecidableEq

mutual
/-- The C `struct _Node`: a storage identity (the address returned by the
allocator), the owned `Token* token` field, the non-owning
`const Node* parent` field (as the identity of the parent, or absent),
and the owned `Array* children` container. -/
inductive Node : Type where
  | mk (nid : Nat) (token : Option Nat) (parent : Option Nat) (children : NodeList)

/-- The children container: an ordered sequence of `Node*` pointers, each
either null (`consNull`) or a pointer to an owned child (`consNode`). -/
inductive NodeList : Type where
  | nil
  | consNull (tl : NodeList)
  | consNode (hd : Node) (tl : NodeList)
end

def Node.nid : Node → Nat
  | .mk i _ _ _ => i

def Node.token : Node → Option Nat
  | .mk _ t _ _ => t

def Node.parent : Node → Option Nat
  | .mk _ _ p _ => p

def Node.children : Node → NodeList
  | .mk _ _ _ cs => cs

/-- Length of the children container (`Array_length`). -/
def NodeList.length : NodeList → Nat
  | .nil => 0
  | .consNull tl => tl.length + 1
  | .consNode _ tl => tl.length + 1

/-- Append one pointer at the back of the container (`Array_push`); the
pushed pointer may be null. -/
def NodeList.push : NodeList → Option Node → NodeList
  | .nil, none => .consNull .nil
  | .nil, some n => .consNode n .nil
  | .consNull tl, x => .consNull (tl.push x)
  | .consNode h tl, x => .consNode h (tl.push x)

/-- The pointer stored at position `i`, or none when out of range. -/
def NodeList.getAt : NodeList → Nat → Option Node
  | .nil, _ => none
  | .consNull _, 0 => none
  | .consNode n _, 0 => some n
  | .consNull tl, i + 1 => tl.getAt i
  | .consNode _ tl, i + 1 => tl.getAt i

/-- The container contents as a plain list of possibly-null pointers. -/
def NodeList.toList : NodeList → List (Option Node)
  | .nil => []
  | .consNull tl => none :: tl.toList
  | .consNode n tl => some n :: tl.toList

/-- Translation of `Array_length` on a children container. -/
def Array_length (cs : NodeList) : Nat := cs.length

/-- Modelled from the spec: the Ordered Container (`Array`, whose sources
are not under src) provides indexed access that yields an absent result
when the index is out of range; a stored null child pointer is likewise
returned as an absent result.  The index is a C `int`, hence `Int`. -/
def Array_getObject (cs : NodeList) (i : Int) : Option Node :=
  if 0 ≤ i ∧ i < (Array_length cs : Int) then cs.getAt i.toNat else none

/-- Translation of `Node_new`.  `ok` is whether `Platform_Alloc` succeeds
and `nid` is the identity of the storage it returns on success.  On
success the Token is moved out of the caller handle (`*token = null`); on
failure nothing is written through the handle.  The result pairs the
returned `Node*` with the final contents of the caller handle.
Modelled from the spec for the absent parent: `Platform_Alloc` is not
under src and `Node_new` never writes the parent field, while the spec
states that construction initializes an absent parent, so allocation is
taken to yield zero-initialized storage. -/
def Node_new (ok : Bool) (nid : Nat) (token : Option Nat) :
    Option Node × Option Nat :=
  if ok then (some (Node.mk nid token none NodeList.nil), none)
  else (none, token)

/-- Translation of `Node_getToken`. -/
def Node_getToken (self : Node) : Option Nat := self.token

/-- Translation of `Node_hasChildren`: `0 < Array_length(self->children)`. -/
def Node_hasChildren (self : Node) : Bool :=
  0 < Array_length self.children

/-- Translation of `Node_getLastChild`:
`Array_getObject(self->children, Array_length(self->children) - 1)`
with the index computed in C `int` arithmetic. -/
def Node_getLastChild (self : Node) : Option Node :=
  Array_getObject self.children ((Array_length self.children : Int) - 1)

/-- Translation of `Node_setParent`: plain assignment of the non-owning
back-reference. -/
def Node_setParent (self : Node) (p : Option Nat) : Node :=
  Node.mk self.nid self.token p self.children

/-- Translation of `Node_addChild`: construct a child by `Node_new` from
the caller handle and push the resulting pointer — checked nowhere — onto
the children container.  Returns the updated node together with the final
contents of the caller Token handle. -/
def Node_addChild (ok : Bool) (nid : Nat) (self : Node) (token : Option Nat) :
    Node × Option Nat :=
  let r := Node_new ok nid token
  (Node.mk self.nid self.token self.parent (self.children.push r.1), r.2)

/-- Modelled from the spec: `NodeIterator` is not under src; the spec
requires the sequence it produces to preserve append order, so the
iterator is modelled as the sequence of stored pointers itself. -/
def NodeIterator_new (cs : NodeList) : List (Option Node) := cs.toList

/-- Translation of `Node_iterator`: `NodeIterator_new(self->children)`. -/
def Node_iterator (self : Node) : List (Option Node) :=
  NodeIterator_new self.children

mutual
/-- Translation of `Node_free` as the trace of release effects it
performs, in order: `Token_free` on the owned token (first!), then the
drain loop over the children, then `Array_free` on the container (not a
Token or Node release, so no event), then clearing the parent reference,
then `Platform_Free` on the own storage.  Modelled from the spec for the
externals: `Token_free` releases the token and is a no-op on a null
handle, `Array_shift` removes and returns the front pointer (null when
the container is empty). -/
def Node_free : Node → List Ev
  | .mk nid tok _ cs =>
      (match tok with
        | none => []
        | some t => [Ev.freeTok t]) ++
      drain cs ++ [Ev.clearParent nid, Ev.freeNode nid]

/-- The drain loop of `Node_free`:
`while ((node = Array_shift(children))) Node_free(&node);`.
The loop exits as soon as `Array_shift` returns null, which happens when
the container is empty or when the front pointer stored is null. -/
def drain : NodeList → List Ev
  | .nil => []
  | .consNull _ => []
  | .consNode c tl => Node_free c ++ drain tl
end

mutual
/-- The Token identities owned inside a tree, in depth-first order. -/
def toks : Node → List Nat
  | .mk _ tok _ cs =>
      (match tok with
        | none => []
        | some t => [t]) ++ ltoks cs

def ltoks : NodeList → List Nat
  | .nil => []
  | .consNull tl => ltoks tl
  | .consNode c tl => toks c ++ ltoks tl
end

mutual
/-- The Node storage identities inside a tree, in depth-first order. -/
def nids : Node → List Nat
  | .mk i _ _ cs => i :: lnids cs

def lnids : NodeList → List Nat
  | .nil => []
  | .consNull tl => lnids tl
  | .consNode c tl => nids c ++ lnids tl
end

mutual
/-- A tree in which every construction succeeded: every Node owns a
Token and no stored child pointer is null. -/
def clean : Node → Bool
  | .mk _ tok _ cs => tok.isSome && lclean cs

def lclean : NodeList → Bool
  | .nil => true
  | .consNull _ => false
  | .consNode c tl => clean c && lclean tl
end

mutual
/-- The destruction order exactly as the specification words it: first
recursively destroy every child in append order, then release the own
Lexical Unit, then clear the parent reference, then release the own
storage.  This follows the spec wording, for comparison against the
`Node_free` translation of the source. -/
def Node_free_specOrder : Node → List Ev
  | .mk nid tok _ cs =>
      drainSpec cs ++
      (match tok with
        | none => []
        | some t => [Ev.freeTok t]) ++
      [Ev.clearParent nid, Ev.freeNode nid]

def drainSpec : NodeList → List Ev
  | .nil => []
  | .consNull _ => []
  | .consNode c tl => Node_free_specOrder c ++ drainSpec tl
end

mutual
/-- The shape of a tree-building run: one constructor call at the root
and one nested addChild call per further vertex. -/
inductive Shape : Type where
  | node (cs : ShapeList)

inductive ShapeList : Type where
  | nil
  | cons (s : Shape) (tl : ShapeList)
end

mutual
/-- The tree produced by `construct` at the root together with nested
`addChild` calls for the children of every vertex, with every allocation
succeeding.  The counter supplies fresh identities: each vertex consumes
one Node identity and one Token identity, so all identities in the
resulting tree are pairwise distinct (proved below).  The result pairs
the tree with the next unused identity. -/
def build : Shape → Nat → Node × Nat
  | .node cs, c =>
      let r := buildList cs (c + 2)
      (Node.mk c (some (c + 1)) none r.1, r.2)

def buildList : ShapeList → Nat → NodeList × Nat
  | .nil, c => (.nil, c)
  | .cons s tl, c =>
      let r := build s c
      let r2 := buildList tl r.2
      (.consNode r.1 r2.1, r2.2)
end

/-- Repeated `Node_addChild` with every allocation succeeding, one call
per Token in the list; the counter supplies the storage identities. -/
def addAll : Node → Nat → List Nat → Node
  | n, _, [] => n
  | n, i, t :: ts => addAll (Node_addChild true i n (some t)).1 (i + 1) ts

/-- The Tokens of the children in the order the iterator yields them. -/
def childTokens (n : Node) : List (Option Nat) :=
  (Node_iterator n).map (fun c => Option.bind c Node_getToken)

/-- A concrete two-vertex tree: a root owning Token 10 with one child
owning Token 11, as built by construct plus one addChild. -/
def cexChild : Node := Node.mk 1 (some 11) none NodeList.nil

def cexRoot : Node :=
  Node.mk 0 (some 10) none (NodeList.consNode cexChild NodeList.nil)

/-- Every member of the list lies in the interval from `c` inclusive to
`d` exclusive. -/
def InRange (c d : Nat) (l : List Nat) : Prop :=
  ∀ a ∈ l, c ≤ a ∧ a < d

/-! ## Container lemmas -/

theorem length_push : ∀ (l : NodeList) (x : Option Node),
    (l.push x).length = l.length + 1
  | .nil, none => rfl
  | .nil, some _ => rfl
  | .consNull tl, x => by
      simp [NodeList.push, NodeList.length, length_push tl x]
  | .consNode h tl, x => by
      simp [NodeList.push, NodeList.length, length_push tl x]

theorem getAt_push_last : ∀ (l : NodeList) (x : Option Node),
    (l.push x).getAt l.length = x
  | .nil, none => rfl
  | .nil, some _ => rfl
  | .consNull tl, x => by
      simp [NodeList.push, NodeList.length, NodeList.getAt, getAt_push_last tl x]
  | .consNode h tl, x => by
      simp [NodeList.push, NodeList.length, NodeList.getAt, getAt_push_last tl x]

theorem toList_push : ∀ (l : NodeList) (x : Option Node),
    (l.push x).toList = l.toList ++ [x]
  | .nil, none => rfl
  | .nil, some _ => rfl
  | .consNull tl, x => by
      simp [NodeList.push, NodeList.toList, toList_push tl x]
  | .consNode h tl, x => by
      simp [NodeList.push, NodeList.toList, toList_push tl x]

theorem push_ne_nil : ∀ (l : NodeList) (x : Option Node),
    l.push x ≠ NodeList.nil
  | .nil, none => by simp [NodeList.push]
  | .nil, some _ => by simp [NodeList.push]
  | .consNull _, _ => by simp [NodeList.push]
  | .consNode _ _, _ => by simp [NodeList.push]

theorem ne_nil_eq_push : ∀ l : NodeList, l ≠ NodeList.nil →
    ∃ (l2 : NodeList) (x : Option Node), l = l2.push x
  | .nil, h => absurd rfl h
  | .consNull .nil, _ => ⟨.nil, none, rfl⟩
  | .consNull (.consNull tl), _ => by
      obtain ⟨l2, x, hx⟩ := ne_nil_eq_push (.consNull tl) (by simp)
      exact ⟨.consNull l2, x, by simp [NodeList.push, ← hx]⟩
  | .consNull (.consNode n tl), _ => by
      obtain ⟨l2, x, hx⟩ := ne_nil_eq_push (.consNode n tl) (by simp)
      exact ⟨.consNull l2, x, by simp [NodeList.push, ← hx]⟩
  | .consNode m .nil, _ => ⟨.nil, some m, rfl⟩
  | .consNode m (.consNull tl), _ => by
      obtain ⟨l2, x, hx⟩ := ne_nil_eq_push (.consNull tl) (by simp)
      exact ⟨.consNode m l2, x, by simp [NodeList.push, ← hx]⟩
  | .consNode m (.consNode n tl), _ => by
      obtain ⟨l2, x, hx⟩ := ne_nil_eq_push (.consNode n tl) (by simp)
      exact ⟨.consNode m l2, x, by simp [NodeList.push, ← hx]⟩

/-- Fetching the last stored pointer, after a push, yields the pushed
pointer: the index computed as length minus one in `int` arithmetic hits
the new element. -/
theorem getLastChild_push (nid : Nat) (tok p : Option Nat) (l : NodeList)
    (x : Option Node) :
    Node_getLastChild (Node.mk nid tok p (l.push x)) = x := by
  have hlen : (l.push x).length = l.length + 1 := length_push l x
  have hguard : (0 : Int) ≤ (l.length : Int) ∧
      (l.length : Int) < ((l.length + 1 : Nat) : Int) := by
    constructor <;> omega
  simp only [Node_getLastChild, Array_getObject, Array_length, Node.children,
    hlen]
  have : ((l.length + 1 : Nat) : Int) - 1 = (l.length : Int) := by push_cast; omega
  rw [this]
  rw [if_pos hguard]
  have : ((l.length : Int)).toNat = l.length := by omega
  rw [this]
  exact getAt_push_last l x

/-! ## Construction claims -/

/-- C3: when construct succeeds on a uniquely held Lexical Unit `t`,
getToken on the new Node yields `t` and the caller handle is set to
absent, so ownership is moved exactly once. -/
theorem C3_construct_moves_token (ok : Bool) (nid t : Nat) (n : Node)
    (h : (Node_new ok nid (some t)).1 = some n) :
    Node_getToken n = some t ∧ (Node_new ok nid (some t)).2 = none := by
  cases ok with
  | false => simp [Node_new] at h
  | true =>
      simp only [Node_new, if_pos] at h
      cases h
      exact ⟨rfl, rfl⟩

theorem C3_witness :
    Node_getToken (Node.mk 0 (some 5) none NodeList.nil) = some 5 ∧
      (Node_new true 0 (some 5)).2 = none :=
  C3_construct_moves_token true 0 5 (Node.mk 0 (some 5) none NodeList.nil) rfl

/-- C4: a Node freshly returned by a successful construct has an empty
children collection (hasChildren is false, the iterator yields the empty
sequence) and an absent parent reference. -/
theorem C4_fresh_node_empty (ok : Bool) (nid t : Nat) (n : Node)
    (h : (Node_new ok nid (some t)).1 = some n) :
    Node_hasChildren n = false ∧ Node_iterator n = [] ∧
      n.parent = none ∧ n.children = NodeList.nil := by
  cases ok with
  | false => simp [Node_new] at h
  | true =>
      simp only [Node_new, if_pos] at h
      cases h
      exact ⟨rfl, rfl, rfl, rfl⟩

theorem C4_witness :
    Node_hasChildren (Node.mk 0 (some 5) none NodeList.nil) = false ∧
      Node_iterator (Node.mk 0 (some 5) none NodeList.nil) = [] ∧
      (Node.mk 0 (some 5) none NodeList.nil).parent = none ∧
      (Node.mk 0 (some 5) none NodeList.nil).children = NodeList.nil :=
  C4_fresh_node_empty true 0 5 (Node.mk 0 (some 5) none NodeList.nil) rfl

/-- C9: when construct fails because allocation fails, the result is
absent and the caller handle to the Lexical Unit is left exactly as it
was before the call — ownership transfers only on success. -/
theorem C9_failed_construct_keeps_handle (nid : Nat) (h : Option Nat) :
    Node_new false nid h = (none, h) := rfl

/-! ## addChild claims -/

/-- C5: after a successful addChild of Token `t`, hasChildren holds, the
last child carries Token `t`, and the children count has grown by exactly
one. -/
theorem C5_addChild_appends (self : Node) (nid t : Nat) :
    Node_hasChildren (Node_addChild true nid self (some t)).1 = true ∧
      (∃ c, Node_getLastChild (Node_addChild true nid self (some t)).1 = some c ∧
        Node_getToken c = some t) ∧
      Array_length (Node_addChild true nid self (some t)).1.children =
        Array_length self.children + 1 := by
  refine ⟨?_, ⟨Node.mk nid (some t) none NodeList.nil, ?_, rfl⟩, ?_⟩
  · simp [Node_hasChildren, Node_addChild, Node_new, Array_length, Node.children,
      length_push]
  · simpa [Node_addChild, Node_new] using
      getLastChild_push self.nid self.token self.parent self.children
        (some (Node.mk nid (some t) none NodeList.nil))
  · simp [Node_addChild, Node_new, Array_length, Node.children, length_push]

/-- C6: addChild modifies only the children collection of the parent —
token, parent reference and storage identity are untouched — and it
never calls setParent on the new child, whose parent reference stays
absent. -/
theorem C6_addChild_frame (ok : Bool) (nid : Nat) (self : Node) (t : Option Nat) :
    (Node_addChild ok nid self t).1.token = self.token ∧
      (Node_addChild ok nid self t).1.parent = self.parent ∧
      (Node_addChild ok nid self t).1.nid = self.nid ∧
      (Node_addChild ok nid self t).1.children =
        self.children.push (Node_new ok nid t).1 ∧
      ∀ cn, (Node_new ok nid t).1 = some cn → cn.parent = none := by
  refine ⟨rfl, rfl, rfl, rfl, ?_⟩
  intro cn hcn
  cases ok with
  | false => simp [Node_new] at hcn
  | true =>
      simp only [Node_new, if_pos] at hcn
      cases hcn
      rfl

theorem C6_witness :
    (Node_addChild true 1 (Node.mk 0 (some 10) none NodeList.nil) (some 11)).1.parent
        = none ∧
      (Node.mk 1 (some 11) none NodeList.nil).parent = none := by
  have h := C6_addChild_frame true 1 (Node.mk 0 (some 10) none NodeList.nil) (some 11)
  exact ⟨h.2.1, h.2.2.2.2 (Node.mk 1 (some 11) none NodeList.nil) rfl⟩

/-- C10: when the internal construct performed by addChild fails, the
failure is not surfaced: a null child pointer is still pushed, the
children count still grows by one, hasChildren becomes true, and the
caller keeps the Token handle. -/
theorem C10_addChild_pushes_null_on_failure (self : Node) (nid : Nat)
    (t : Option Nat) :
    (Node_addChild false nid self t).1.children = self.children.push none ∧
      Array_length (Node_addChild false nid self t).1.children =
        Array_length self.children + 1 ∧
      Node_hasChildren (Node_addChild false nid self t).1 = true ∧
      (Node_addChild false nid self t).2 = t := by
  refine ⟨rfl, ?_, ?_, rfl⟩
  · simp [Node_addChild, Node_new, Array_length, Node.children, length_push]
  · simp [Node_hasChildren, Node_addChild, Node_new, Array_length, Node.children,
      length_push]

/-! ## getLastChild claim -/

/-- C7: getLastChild yields an absent result on an empty children
collection, and otherwise — every non-empty collection is some pushed
collection — the most recently pushed pointer, reached by indexing at
count minus one. -/
theorem C7_getLastChild (self : Node) :
    (self.children = NodeList.nil → Node_getLastChild self = none) ∧
      (∀ (l : NodeList) (x : Option Node), self.children = l.push x →
        Node_getLastChild self = x) ∧
      (self.children ≠ NodeList.nil →
        ∃ (l : NodeList) (x : Option Node), self.children = l.push x) := by
  refine ⟨?_, ?_, ?_⟩
  · intro h
    simp [Node_getLastChild, Array_getObject, Array_length, h, NodeList.length]
  · intro l x h
    cases self with
    | mk nid tok p cs =>
        simp only [Node.children] at h
        subst h
        exact getLastChild_push nid tok p l x
  · exact ne_nil_eq_push self.children

theorem C7_witness :
    Node_getLastChild (Node.mk 0 (some 10) none NodeList.nil) = none ∧
      Node_getLastChild
        (Node.mk 0 (some 10) none (NodeList.consNode cexChild NodeList.nil)) =
        some cexChild := by
  constructor
  · exact (C7_getLastChild (Node.mk 0 (some 10) none NodeList.nil)).1 rfl
  · exact (C7_getLastChild
      (Node.mk 0 (some 10) none (NodeList.consNode cexChild NodeList.nil))).2.1
      NodeList.nil (some cexChild) rfl

/-! ## Iterator claim -/

theorem iterator_addChild (ok : Bool) (i : Nat) (n : Node) (t : Option Nat) :
    Node_iterator (Node_addChild ok i n t).1 =
      Node_iterator n ++ [(Node_new ok i t).1] := by
  cases n with
  | mk nid tok p cs =>
      simp [Node_iterator, NodeIterator_new, Node_addChild, Node.children,
        toList_push]

theorem childTokens_addAll : ∀ (ts : List Nat) (n : Node) (i : Nat),
    childTokens (addAll n i ts) = childTokens n ++ ts.map some
  | [], n, i => by simp [addAll]
  | t :: ts, n, i => by
      have ih := childTokens_addAll ts (Node_addChild true i n (some t)).1 (i + 1)
      calc childTokens (addAll n i (t :: ts))
          = childTokens (Node_addChild true i n (some t)).1 ++ ts.map some := by
            simpa [addAll] using ih
        _ = (childTokens n ++ [some t]) ++ ts.map some := by
            simp [childTokens, iterator_addChild, Node_new, Node_getToken,
              Node.token]
        _ = childTokens n ++ (t :: ts).map some := by simp

/-- C8: on a freshly constructed Node, appending the Tokens `ts` through
addChild makes the iterator yield exactly those children in append order:
the Token sequence read off the iterator is `ts` itself and the sequence
length is the number of appended children. -/
theorem C8_iterator_yields_append_order (nid t0 i : Nat) (ts : List Nat)
    (n : Node) (h : (Node_new true nid (some t0)).1 = some n) :
    childTokens (addAll n i ts) = ts.map some ∧
      (Node_iterator (addAll n i ts)).length = ts.length := by
  have hn : n = Node.mk nid (some t0) none NodeList.nil := by
    simp only [Node_new, if_pos] at h
    exact (Option.some_inj.mp h).symm
  subst hn
  have h1 := childTokens_addAll ts (Node.mk nid (some t0) none NodeList.nil) i
  have h0 : childTokens (Node.mk nid (some t0) none NodeList.nil) = [] := rfl
  rw [h0, List.nil_append] at h1
  refine ⟨h1, ?_⟩
  have h2 : (childTokens (addAll (Node.mk nid (some t0) none NodeList.nil) i ts)).length
      = (Node_iterator (addAll (Node.mk nid (some t0) none NodeList.nil) i ts)).length := by
    simp [childTokens]
  rw [← h2, h1, List.length_map]

theorem C8_witness :
    childTokens (addAll (Node.mk 0 (some 5) none NodeList.nil) 1 [7, 8]) =
        [some 7, some 8] ∧
      (Node_iterator (addAll (Node.mk 0 (some 5) none NodeList.nil) 1 [7, 8])).length
        = 2 :=
  C8_iterator_yields_append_order 0 5 1 [7, 8]
    (Node.mk 0 (some 5) none NodeList.nil) rfl

/-! ## Destruction order (claim C2) -/

theorem drain_eq_flatMap : ∀ cs : NodeList, lclean cs = true →
    drain cs = cs.toList.flatMap (fun c => Option.elim c [] Node_free)
  | .nil, _ => rfl
  | .consNull tl, h => by simp [lclean] at h
  | .consNode c tl, h => by
      have h2 : clean c = true ∧ lclean tl = true := by
        simpa [lclean, Bool.and_eq_true] using h
      simp [drain, NodeList.toList, drain_eq_flatMap tl h2.2]

/-- C2 as stated is false on the code: on the concrete two-vertex tree
`cexRoot` the code releases the root's own Lexical Unit before destroying
the child, so the trace differs from the children-first order the claim
describes. -/
theorem C2_counterexample :
    Node_free cexRoot ≠ Node_free_specOrder cexRoot := by decide

/-- C2 amended: destroy first releases the Node's own Lexical Unit, then
recursively destroys every child depth-first in append order (front to
back), then clears the parent reference, then releases the Node's own
storage. -/
theorem C2_destroy_order (n : Node) (h : clean n = true) :
    ∃ t, Node_getToken n = some t ∧
      Node_free n =
        Ev.freeTok t ::
          ((Node_iterator n).flatMap (fun c => Option.elim c [] Node_free) ++
            [Ev.clearParent n.nid, Ev.freeNode n.nid]) := by
  cases n with
  | mk nid tok p cs =>
      have h2 : tok.isSome = true ∧ lclean cs = true := by
        simpa [clean, Bool.and_eq_true] using h
      obtain ⟨t, ht⟩ := Option.isSome_iff_exists.mp h2.1
      subst ht
      exact ⟨t, rfl, by
        simp [Node_free, Node_iterator, NodeIterator_new, Node.children,
          Node.nid, drain_eq_flatMap cs h2.2]⟩

theorem C2_witness :
    clean cexRoot = true ∧
      ∃ t, Node_getToken cexRoot = some t ∧
        Node_free cexRoot =
          Ev.freeTok t ::
            ((Node_iterator cexRoot).flatMap (fun c => Option.elim c [] Node_free) ++
              [Ev.clearParent cexRoot.nid, Ev.freeNode cexRoot.nid]) :=
  ⟨by decide, C2_destroy_order cexRoot (by decide)⟩

/-! ## Release counting (claim C1) -/

mutual
theorem count_freeTok_node : ∀ (n : Node), clean n = true → ∀ a : Nat,
    (Node_free n).count (Ev.freeTok a) = (toks n).count a
  | .mk nid tok p cs, h, a => by
      have h2 : tok.isSome = true ∧ lclean cs = true := by
        simpa [clean, Bool.and_eq_true] using h
      obtain ⟨t, ht⟩ := Option.isSome_iff_exists.mp h2.1
      subst ht
      have ihl := count_freeTok_list cs h2.2 a
      simp [Node_free, toks, List.count_append, List.count_cons, List.count_nil,
        ihl, beq_iff_eq]

theorem count_freeTok_list : ∀ (cs : NodeList), lclean cs = true → ∀ a : Nat,
    (drain cs).count (Ev.freeTok a) = (ltoks cs).count a
  | .nil, _, a => rfl
  | .consNull tl, h, a => by simp [lclean] at h
  | .consNode c tl, h, a => by
      have h2 : clean c = true ∧ lclean tl = true := by
        simpa [lclean, Bool.and_eq_true] using h
      have ihn := count_freeTok_node c h2.1 a
      have ihl := count_freeTok_list tl h2.2 a
      simp [drain, ltoks, List.count_append, ihn, ihl]
end

mutual
theorem count_freeNode_node : ∀ (n : Node), clean n = true → ∀ i : Nat,
    (Node_free n).count (Ev.freeNode i) = (nids n).count i
  | .mk nid tok p cs, h, i => by
      have h2 : tok.isSome = true ∧ lclean cs = true := by
        simpa [clean, Bool.and_eq_true] using h
      obtain ⟨t, ht⟩ := Option.isSome_iff_exists.mp h2.1
      subst ht
      have ihl := count_freeNode_list cs h2.2 i
      simp [Node_free, nids, List.count_append, List.count_cons, List.count_nil,
        ihl, beq_iff_eq]

theorem count_freeNode_list : ∀ (cs : NodeList), lclean cs = true → ∀ i : Nat,
    (drain cs).count (Ev.freeNode i) = (lnids cs).count i
  | .nil, _, i => rfl
  | .consNull tl, h, i => by simp [lclean] at h
  | .consNode c tl, h, i => by
      have h2 : clean c = true ∧ lclean tl = true := by
        simpa [lclean, Bool.and_eq_true] using h
      have ihn := count_freeNode_node c h2.1 i
      have ihl := count_freeNode_list tl h2.2 i
      simp [drain, lnids, List.count_append, ihn, ihl]
end

/-! ## Freshness of the builder (claim C1) -/

theorem InRange.mono {c d c2 d2 : Nat} {l : List Nat} (h : InRange c d l)
    (hc : c2 ≤ c) (hd : d ≤ d2) : InRange c2 d2 l :=
  fun a ha => ⟨le_trans hc (h a ha).1, lt_of_lt_of_le (h a ha).2 hd⟩

theorem InRange.append {c d : Nat} {l1 l2 : List Nat} (h1 : InRange c d l1)
    (h2 : InRange c d l2) : InRange c d (l1 ++ l2) := by
  intro a ha
  rcases List.mem_append.mp ha with h | h
  exacts [h1 a h, h2 a h]

theorem InRange.nodup_append {c d e : Nat} {l1 l2 : List Nat}
    (h1 : InRange c d l1) (h2 : InRange d e l2)
    (n1 : l1.Nodup) (n2 : l2.Nodup) : (l1 ++ l2).Nodup := by
  refine List.Nodup.append n1 n2 ?_
  intro a ha1 ha2
  have hb1 := (h1 a ha1).2
  have hb2 := (h2 a ha2).1
  omega

mutual
theorem build_spec : ∀ (s : Shape) (c : Nat),
    c ≤ (build s c).2 ∧
    clean (build s c).1 = true ∧
    InRange c (build s c).2 (toks (build s c).1) ∧
    InRange c (build s c).2 (nids (build s c).1) ∧
    (toks (build s c).1).Nodup ∧
    (nids (build s c).1).Nodup
  | .node cs, c => by
      obtain ⟨hle, hcl, htr, hnr, htn, hnn⟩ := buildList_spec cs (c + 2)
      simp only [build, toks, nids, clean]
      refine ⟨by omega, by simp [hcl], ?_, ?_, ?_, ?_⟩
      · intro a ha
        rcases List.mem_cons.mp ha with h | h
        · subst h; constructor <;> omega
        · have := htr a h; constructor <;> omega
      · intro a ha
        rcases List.mem_cons.mp ha with h | h
        · subst h; constructor <;> omega
        · have := hnr a h; constructor <;> omega
      · refine List.nodup_cons.mpr ⟨?_, htn⟩
        intro hmem
        have := (htr _ hmem).1
        omega
      · refine List.nodup_cons.mpr ⟨?_, hnn⟩
        intro hmem
        have := (hnr _ hmem).1
        omega

theorem buildList_spec : ∀ (l : ShapeList) (c : Nat),
    c ≤ (buildList l c).2 ∧
    lclean (buildList l c).1 = true ∧
    InRange c (buildList l c).2 (ltoks (buildList l c).1) ∧
    InRange c (buildList l c).2 (lnids (buildList l c).1) ∧
    (ltoks (buildList l c).1).Nodup ∧
    (lnids (buildList l c).1).Nodup
  | .nil, c => by
      simp [buildList, ltoks, lnids, lclean, InRange]
  | .cons s tl, c => by
      obtain ⟨hle1, hcl1, htr1, hnr1, htn1, hnn1⟩ := build_spec s c
      obtain ⟨hle2, hcl2, htr2, hnr2, htn2, hnn2⟩ := buildList_spec tl (build s c).2
      simp only [buildList, ltoks, lnids, lclean]
      refine ⟨by omega, by simp [hcl1, hcl2], ?_, ?_, ?_, ?_⟩
      · exact InRange.append (htr1.mono le_rfl hle2) (htr2.mono hle1 le_rfl)
      · exact InRange.append (hnr1.mono le_rfl hle2) (hnr2.mono hle1 le_rfl)
      · exact InRange.nodup_append htr1 htr2 htn1 htn2
      · exact InRange.nodup_append hnr1 hnr2 hnn1 hnn2
end

/-- C1: destroying the root of a tree built from construct and nested
addChild calls (every allocation succeeding) releases every owned
Lexical Unit and every Node exactly once: each Token and each Node
identity of the tree has exactly one release event in the destruction
trace, and identities outside the tree have none. -/
theorem C1_destroy_releases_exactly_once (s : Shape) (c : Nat) :
    (∀ a ∈ toks (build s c).1,
        (Node_free (build s c).1).count (Ev.freeTok a) = 1) ∧
      (∀ a, a ∉ toks (build s c).1 →
        (Node_free (build s c).1).count (Ev.freeTok a) = 0) ∧
      (∀ i ∈ nids (build s c).1,
        (Node_free (build s c).1).count (Ev.freeNode i) = 1) ∧
      (∀ i, i ∉ nids (build s c).1 →
        (Node_free (build s c).1).count (Ev.freeNode i) = 0) := by
  obtain ⟨hle, hcl, htr, hnr, htn, hnn⟩ := build_spec s c
  refine ⟨?_, ?_, ?_, ?_⟩
  · intro a ha
    rw [count_freeTok_node _ hcl a]
    exact List.count_eq_one_of_mem htn ha
  · intro a ha
    rw [count_freeTok_node _ hcl a]
    exact List.count_eq_zero_of_not_mem ha
  · intro i hi
    rw [count_freeNode_node _ hcl i]
    exact List.count_eq_one_of_mem hnn hi
  · intro i hi
    rw [count_freeNode_node _ hcl i]
    exact List.count_eq_zero_of_not_mem hi

theorem C1_witness :
    (Node_free (build (Shape.node (ShapeList.cons (Shape.node ShapeList.nil)
        ShapeList.nil)) 0).1).count (Ev.freeTok 1) = 1 ∧
      (Node_free (build (Shape.node (ShapeList.cons (Shape.node ShapeList.nil)
        ShapeList.nil)) 0).1).count (Ev.freeTok 5) = 0 ∧
      (Node_free (build (Shape.node (ShapeList.cons (Shape.node ShapeList.nil)
        ShapeList.nil)) 0).1).count (Ev.freeNode 0) = 1 ∧
      (Node_free (build (Shape.node (ShapeList.cons (Shape.node ShapeList.nil)
        ShapeList.nil)) 0).1).count (Ev.freeNode 7) = 0 := by
  have h := C1_destroy_releases_exactly_once
    (Shape.node (ShapeList.cons (Shape.node ShapeList.nil) ShapeList.nil)) 0
  exact ⟨h.1 1 (by decide), h.2.1 5 (by decide), h.2.2.1 0 (by decide),
    h.2.2.2 7 (by decide)⟩

end IxNode
